import Mathlib

/-!
Verification of the Steam data-analytics pipeline: patch classification
(`patch_extractor.py`), per-game patch summaries, monthly-series
normalization and event-time panel construction
(`collect_panel_for_did.py`), and the TTL cache (`scraper/cache.py`).

Conventions of the embedding:
* Python strings are Lean `String`s; the Python substring test `kw in s` is
  `occursIn` over lists of characters; `str.lower()` is a character-wise
  `Char.toLower` (all keywords are ASCII).
* Calendar months are encoded as integer month indices
  `ymIdx y m = 12 * y + (m - 1)`; for valid dates (1 ≤ m ≤ 12) this is a
  faithful, order-preserving encoding of the first-of-month timestamps
  that pandas produces with month-period truncation, and adding a
  `DateOffset(months=rel)` is adding `rel` to the index.
* Player counts are embedded as rationals (`Rat`); the mean/max
  aggregation in the source is exact on the inputs the claims mention.
* `datetime.fromisoformat` and `datetime.strptime` are Python standard
  library collaborators, not repository code; they are abstracted as
  function parameters `fromiso strp : String → Option Ymd` of the panel
  builder.
* The SQLite table backing `SteamCache` is modelled as a list of rows;
  `json.dumps`/`json.loads` round-tripping is abstracted away by letting
  the payload type be an arbitrary `α`.
-/

/-- Does `pat` occur at the head of `text`? (helper for substring search) -/
def matchesAt : List Char → List Char → Bool
  | [], _ => true
  | _ :: _, [] => false
  | p :: ps, t :: ts => (p == t) && matchesAt ps ts

/-- The Python `pat in text` substring test, over character lists. -/
def occursIn (pat : List Char) : List Char → Bool
  | [] => matchesAt pat []
  | t :: ts => matchesAt pat (t :: ts) || occursIn pat ts

/-- The call `containsKw combined kw` embeds the Python test `kw in combined`. -/
def containsKw (combined : List Char) (kw : String) : Bool :=
  occursIn kw.toList combined

/-- `(title + " " + contents).lower()` from `classify_patch`. -/
def lowerCombined (title contents : String) : List Char :=
  ((title ++ " " ++ contents).toList).map Char.toLower

/-- The `patch_keywords` list of `classify_patch` (patch_extractor.py). -/
def patch_keywords : List String :=
  ["patch", "update", "hotfix", "fix", "bug", "balance",
   "expansion", "dlc", "content update", "new feature",
   "maintenance", "adjustment", "tweak", "improvement"]

/-- The `major_indicators` list of `classify_patch`. -/
def major_indicators : List String :=
  ["major update", "major patch", "expansion", "new content",
   "new feature", "new game mode", "new map", "new character",
   "gameplay change", "mechanic change", "overhaul",
   "substantial", "significant", "massive", "complete rework"]

/-- The `minor_indicators` list of `classify_patch`. -/
def minor_indicators : List String :=
  ["hotfix", "bug fix", "small fix", "minor", "performance",
   "cosmetic", "visual", "balance adjustment", "tweak",
   "adjustment", "stability"]

/-- `any(kw in combined for kw in kws)`. -/
def anyKwIn (kws : List String) (combined : List Char) : Bool :=
  kws.any (containsKw combined)

/-- Embedding of `classify_patch(title, contents)`
(patch_extractor.py, lines 64-118): `None` becomes `none`, the returned
triple `(is_patch, is_major, classification_reason)` becomes
`some (Bool × Bool × String)`. -/
def classify_patch (title contents : String) : Option (Bool × Bool × String) :=
  let combined := lowerCombined title contents
  let is_patch := anyKwIn patch_keywords combined
  if is_patch = false then
    none
  else
    let is_major_candidate := anyKwIn major_indicators combined
    let is_minor_candidate := anyKwIn minor_indicators combined
    if is_minor_candidate && !is_major_candidate then
      some (true, false, "minor_keywords")
    else if is_major_candidate then
      some (true, true, "major_keywords")
    else if containsKw combined "bug fix" || containsKw combined "hotfix" then
      some (true, false, "default_minor")
    else
      some (true, true, "default_major")

/-- A patch record as built by `extract_patches_for_games`
(patch_extractor.py, lines 188-197); `date` is the
%Y-%m-%d %H:%M:%S formatted string the source stores and compares
(lexicographic string order on this fixed-width format is
chronological order). -/
structure PatchEntry where
  appid : Nat
  title : String
  contents : String
  date : String
  unix_timestamp : Int
  is_major : Bool
  classification_reason : String
deriving DecidableEq

/-- The Python string `<` on character lists: lexicographic comparison by
code point. -/
def charsLt : List Char → List Char → Bool
  | _, [] => false
  | [], _ :: _ => true
  | a :: as, b :: bs =>
    Nat.blt a.toNat b.toNat || (a.toNat == b.toNat && charsLt as bs)

/-- The Python string `<`. -/
def strLt (a b : String) : Bool := charsLt a.toList b.toList

/-- The Python built-in `min` over a list of strings (`none` on empty input;
the built-in raises there, and the source only calls it on nonempty
input). Keeps the current value on ties, as CPython does. -/
def pyMin (l : List String) : Option String :=
  match l with
  | [] => none
  | a :: as => some (as.foldl (fun acc x => if strLt x acc then x else acc) a)

/-- The Python built-in `max` over a list of strings. -/
def pyMax (l : List String) : Option String :=
  match l with
  | [] => none
  | a :: as => some (as.foldl (fun acc x => if strLt acc x then x else acc) a)

/-- The per-game summary record of `extract_patches_for_games`
(patch_extractor.py, lines 213-220). -/
structure GamePatchSummary where
  total_patches : Nat
  major_patches : Nat
  minor_patches : Nat
  has_major_patch : Bool
  first_major_patch_date : Option String
  last_patch_date : Option String
deriving DecidableEq

/-- The summarization step of `extract_patches_for_games`
(patch_extractor.py, lines 200-220) applied to the list of
classified patch records. The Python built-ins `min`/`max` over a
collection guarded by the emptiness checks in the source are
`pyMin`/`pyMax`, which return `none` exactly on the guarded-out empty
collections. -/
def summarizeGame (patches : List PatchEntry) : GamePatchSummary :=
  let major_count := (patches.filter (fun p => p.is_major)).length
  { total_patches := patches.length
    major_patches := major_count
    minor_patches := patches.length - major_count
    has_major_patch := decide (0 < major_count)
    first_major_patch_date :=
      pyMin ((patches.filter (fun p => p.is_major)).map PatchEntry.date)
    last_patch_date := pyMax (patches.map PatchEntry.date) }

/-- A raw player-count point as returned by
`fetch_monthly_series` (a dict with date, avg and peak); the date is an
already-parsed calendar date `y-m-d`. -/
structure RawPoint where
  y : Nat
  m : Nat
  d : Nat
  avg : Rat
  peak : Rat
deriving DecidableEq

/-- Month index encoding of the first-of-month timestamp for year `y`,
month `m`. -/
def ymIdx (y m : Nat) : Int := 12 * (y : Int) + ((m : Int) - 1)

/-- The `ym` value (month-period truncation of the date) of a raw point. -/
def ymKey (p : RawPoint) : Int := ymIdx p.y p.m

/-- One row of the normalized (grouped-by-month) series. -/
structure MonthPoint where
  ym : Int
  avg : Rat
  peak : Rat
deriving DecidableEq

/-- Maximum of a list of rationals (pandas `max` over a nonempty
group; the `[]` case is never reached on nonempty buckets). -/
def ratMax : List Rat → Rat
  | [] => 0
  | a :: as => as.foldl max a

/-- Maximum of a list of month indices (pandas `.max()` over a
nonempty `ym` column; the `[]` case is never reached). -/
def intMaxOf : List Int → Int
  | [] => 0
  | a :: as => as.foldl max a

/-- The monthly-series normalization inlined in `build_panel`
(collect_panel_for_did.py, lines 118-141):
the `ym` column is the month-period truncation of the date column,
followed by a groupby on `ym` aggregating the mean of `avg` and the
maximum of `peak`.
Pandas emits one row per distinct key, keys sorted ascending; the mean
is the arithmetic mean over the bucket and the peak the maximum. -/
def normalizeSeries (pts : List RawPoint) : List MonthPoint :=
  let keys := List.insertionSort (· ≤ ·) (pts.map ymKey).dedup
  keys.map (fun k =>
    let bucket := pts.filter (fun p => ymKey p == k)
    { ym := k
      avg := (bucket.map RawPoint.avg).sum / (bucket.length : Rat)
      peak := ratMax (bucket.map RawPoint.peak) })

/-- A parsed `datetime` (only the calendar-date fields are read by the
panel builder). -/
structure Ymd where
  y : Nat
  m : Nat
  d : Nat
deriving DecidableEq

/-- The slice of a patch-summary dict that
`extract_last_major_date` reads. -/
structure SummaryEntry where
  first_major_patch_date : Option String
deriving DecidableEq

/-- Embedding of `extract_last_major_date(patch_summary, appid)`
(collect_panel_for_did.py, lines 40-54), after the dict lookup: `entry`
is the looked-up summary for the appid (`none` when absent, which also
covers the falsy empty dict in Python). `fromiso` and `strp` model the
standard-library parsers `datetime.fromisoformat` and
`datetime.strptime` with format %Y-%m-%d %H:%M:%S, returning `none`
where the source catches the parsing exception. The `date_str = ""`
branch models the falsy empty string in `if not date_str`. -/
def extract_last_major_date (fromiso strp : String → Option Ymd)
    (entry : Option SummaryEntry) : Option Ymd :=
  match entry with
  | none => none
  | some s =>
    match s.first_major_patch_date with
    | none => none
    | some date_str =>
      if date_str = "" then none
      else
        match fromiso date_str with
        | some d => some d
        | none => strp date_str

/-- The slice of the store metadata that `build_panel` reads. -/
structure StoreData where
  name : Option String
  metacritic : Option Nat
deriving DecidableEq

/-- Per-game inputs to `build_panel` after the fetch boundary: store
metadata (`store.fetch_app`, `none` on failure), the owners estimate
(`owners_from_steamdb`), the patch-summary entry of the game, and the raw
monthly series (`fetch_monthly_series`). -/
structure GameInput where
  appid : Nat
  store : Option StoreData
  owners_estimate : Option Rat
  summaryEntry : Option SummaryEntry
  series : List RawPoint
deriving DecidableEq

/-- One output row of `build_panel` (collect_panel_for_did.py, lines
192-203). `event_date` and `month` are month indices encoding the
%Y-%m-%d / %Y-%m strings the source formats. -/
structure PanelRow where
  appid : Nat
  name : Option String
  event_date : Option Int
  rel_month : Int
  month : Option Int
  avg_players : Option Rat
  peak_players : Option Rat
  owners_estimate : Option Rat
  metacritic_score : Option Nat
  treatment : Nat
deriving DecidableEq

/-- `range(-4, 5)` from the row loop of `build_panel`. -/
def relRange : List Int := [-4, -3, -2, -1, 0, 1, 2, 3, 4]

/-- The body of the `for rel in range(-4, 5)` loop of `build_panel`
(collect_panel_for_did.py, lines 149-203): one `PanelRow` for a given
relative month. `event_month` is the anchor month for treated games
(`none` for controls), `df` the normalized series of the game. In the
control branch the source anchors at the maximum of the `ym` column when the
normalized series is nonempty and emits an all-null row otherwise;
`matched.head?` embeds taking `iloc[0]` of the matched rows guarded by
`not matched.empty`. -/
def panelRowFor (g : GameInput) (treatment : Nat) (event_month : Option Int)
    (df : List MonthPoint) (rel : Int) : PanelRow :=
  match event_month with
  | some em =>
    let row_date := em + rel
    let matched := df.filter (fun q => q.ym == row_date)
    { appid := g.appid
      name := g.store.bind StoreData.name
      event_date := some em
      rel_month := rel
      month := some row_date
      avg_players := matched.head?.map MonthPoint.avg
      peak_players := matched.head?.map MonthPoint.peak
      owners_estimate := g.owners_estimate
      metacritic_score := g.store.bind StoreData.metacritic
      treatment := treatment }
  | none =>
    match df with
    | [] =>
      { appid := g.appid
        name := g.store.bind StoreData.name
        event_date := none
        rel_month := rel
        month := none
        avg_players := none
        peak_players := none
        owners_estimate := g.owners_estimate
        metacritic_score := g.store.bind StoreData.metacritic
        treatment := treatment }
    | q :: qs =>
      let latest := intMaxOf ((q :: qs).map MonthPoint.ym)
      let row_date := latest + rel
      let matched := (q :: qs).filter (fun p => p.ym == row_date)
      { appid := g.appid
        name := g.store.bind StoreData.name
        event_date := none
        rel_month := rel
        month := some row_date
        avg_players := matched.head?.map MonthPoint.avg
        peak_players := matched.head?.map MonthPoint.peak
        owners_estimate := g.owners_estimate
        metacritic_score := g.store.bind StoreData.metacritic
        treatment := treatment }

/-- The treatment assignment of `build_panel` (collect_panel_for_did.py,
lines 105-114): treatment=0 when no parseable major-patch date exists,
treatment=1 otherwise. -/
def treatmentOf (last_major : Option Ymd) : Nat :=
  match last_major with
  | none => 0
  | some _ => 1

/-- `event_month = datetime(event_dt.year, event_dt.month, 1)` for
treated games, `None` for controls (collect_panel_for_did.py, lines
142-146), in month-index encoding. -/
def eventMonthOf (last_major : Option Ymd) : Option Int :=
  last_major.map (fun d => ymIdx d.y d.m)

/-- The per-game part of `build_panel` (collect_panel_for_did.py,
lines 105-203): anchor determination (`extract_last_major_date`),
series normalization, and the nine-row loop. -/
def gameRows (fromiso strp : String → Option Ymd) (g : GameInput) : List PanelRow :=
  let last_major := extract_last_major_date fromiso strp g.summaryEntry
  relRange.map
    (panelRowFor g (treatmentOf last_major) (eventMonthOf last_major)
      (normalizeSeries g.series))

/-- Embedding of `build_panel` over its per-game inputs: the rows of
all games concatenated in input order. -/
def build_panel (fromiso strp : String → Option Ymd)
    (games : List GameInput) : List PanelRow :=
  games.flatMap (gameRows fromiso strp)

/-- One row of the SQLite `cache` table of `SteamCache`
(scraper/cache.py). The payload type is abstract (`json.dumps` /
`json.loads` round-tripping is the identity on it). -/
structure CacheRow (α : Type) where
  endpoint : String
  appid : Nat
  data : α
  timestamp : Rat
deriving DecidableEq

/-- The cache state: the table contents plus the TTL fixed at
construction (`ttl_seconds`, default 7 days). -/
structure SteamCache (α : Type) where
  rows : List (CacheRow α)
  ttl_seconds : Rat
deriving DecidableEq

/-- `WHERE endpoint = ? AND appid = ?`. -/
def cacheKeyMatches {α : Type} (endpoint : String) (appid : Nat)
    (r : CacheRow α) : Bool :=
  r.endpoint == endpoint && r.appid == appid

/-- `SteamCache.get` (scraper/cache.py, lines 31-48): returns the
cached payload when present and fresh; on an expired hit it deletes
the row and returns nothing. `now` models `time.time()`. The returned
pair is (result, post-read table state). -/
def SteamCache.get {α : Type} (c : SteamCache α) (endpoint : String)
    (appid : Nat) (now : Rat) : Option α × SteamCache α :=
  match c.rows.find? (cacheKeyMatches endpoint appid) with
  | none => (none, c)
  | some r =>
    if c.ttl_seconds < now - r.timestamp then
      (none, { c with rows := c.rows.filter (fun r2 => !cacheKeyMatches endpoint appid r2) })
    else
      (some r.data, c)

/-- `SteamCache.set` (scraper/cache.py, lines 50-57):
`INSERT OR REPLACE` on the primary key `(endpoint, appid)`. -/
def SteamCache.set {α : Type} (c : SteamCache α) (endpoint : String)
    (appid : Nat) (data : α) (now : Rat) : SteamCache α :=
  { c with rows := (c.rows.filter (fun r => !cacheKeyMatches endpoint appid r)) ++
      [{ endpoint := endpoint, appid := appid, data := data, timestamp := now }] }

/-- The `"total"` field of `SteamCache.get_stats`
(scraper/cache.py): `SELECT COUNT(*) FROM cache`. -/
def SteamCache.get_stats_total {α : Type} (c : SteamCache α) : Nat :=
  c.rows.length

/-! Helper lemmas about the Python string order. -/

/-- Strict lexicographic comparison is irreflexive. -/
theorem charsLt_irrefl : ∀ l, charsLt l l = false := by
  intro l
  induction l with
  | nil => rfl
  | cons a as ih =>
    simp only [charsLt, ih, Bool.and_false, beq_self_eq_true, Bool.true_and, Bool.or_false]
    rw [Bool.eq_false_iff]
    intro h
    rw [Nat.blt_eq] at h
    exact absurd h (lt_irrefl _)

/-- Strict lexicographic comparison is transitive. -/
theorem charsLt_trans : ∀ a b c, charsLt a b = true → charsLt b c = true →
    charsLt a c = true := by
  intro a
  induction a with
  | nil =>
    intro b c hab hbc
    cases c with
    | nil => cases b <;> simp [charsLt] at hbc
    | cons c0 cs => simp [charsLt]
  | cons a0 as ih =>
    intro b c hab hbc
    cases b with
    | nil => simp [charsLt] at hab
    | cons b0 bs =>
      cases c with
      | nil => simp [charsLt] at hbc
      | cons c0 cs =>
        simp only [charsLt, Bool.or_eq_true, Bool.and_eq_true, Nat.blt_eq, beq_iff_eq] at *
        rcases hab with h1 | ⟨h1, h1'⟩ <;> rcases hbc with h2 | ⟨h2, h2'⟩
        · exact Or.inl (Nat.lt_trans h1 h2)
        · exact Or.inl (h2 ▸ h1)
        · exact Or.inl (h1 ▸ h2)
        · exact Or.inr ⟨h1.trans h2, ih bs cs h1' h2'⟩

/-- The negation of strict lexicographic comparison is transitive. -/
theorem charsLt_false_trans : ∀ a b c, charsLt a b = false → charsLt b c = false →
    charsLt a c = false := by
  intro a
  induction a with
  | nil =>
    intro b c hab hbc
    cases b with
    | nil =>
      cases c with
      | nil => rfl
      | cons c0 cs => simp [charsLt] at hbc
    | cons b0 bs => simp [charsLt] at hab
  | cons a0 as ih =>
    intro b c hab hbc
    cases c with
    | nil => rfl
    | cons c0 cs =>
      cases b with
      | nil => simp [charsLt] at hbc
      | cons b0 bs =>
        simp only [charsLt, Bool.or_eq_false_iff, Bool.and_eq_false_iff,
          beq_eq_false_iff_ne, ne_eq] at *
        obtain ⟨hab1, hab2⟩ := hab
        obtain ⟨hbc1, hbc2⟩ := hbc
        rw [Bool.eq_false_iff] at hab1 hbc1
        simp only [ne_eq, Nat.blt_eq] at hab1 hbc1
        constructor
        · simp only [Bool.eq_false_iff, ne_eq, Nat.blt_eq]
          omega
        · by_cases hac : a0.toNat = c0.toNat
          · have hb1 : a0.toNat = b0.toNat := by omega
            have hb2 : b0.toNat = c0.toNat := by omega
            have e1 : charsLt as bs = false := by
              rcases hab2 with h | h
              · exact absurd hb1 h
              · exact h
            have e2 : charsLt bs cs = false := by
              rcases hbc2 with h | h
              · exact absurd hb2 h
              · exact h
            exact Or.inr (ih bs cs e1 e2)
          · exact Or.inl hac

theorem strLt_irrefl (a : String) : strLt a a = false := charsLt_irrefl _

theorem strLt_trans {a b c : String} (h1 : strLt a b = true) (h2 : strLt b c = true) :
    strLt a c = true := charsLt_trans _ _ _ h1 h2

theorem strLt_false_trans {a b c : String} (h1 : strLt a b = false)
    (h2 : strLt b c = false) : strLt a c = false := charsLt_false_trans _ _ _ h1 h2

/-- The running value of the `pyMin` fold is an element (or the seed) and a
lower bound of everything consumed so far. -/
theorem foldlMin_spec (as : List String) (acc : String) :
    (as.foldl (fun a x => if strLt x a then x else a) acc = acc ∨
      as.foldl (fun a x => if strLt x a then x else a) acc ∈ as)
    ∧ strLt acc (as.foldl (fun a x => if strLt x a then x else a) acc) = false
    ∧ ∀ x ∈ as, strLt x (as.foldl (fun a x => if strLt x a then x else a) acc) = false := by
  induction as generalizing acc with
  | nil => exact ⟨Or.inl rfl, strLt_irrefl acc, by simp⟩
  | cons y ys ih =>
    simp only [List.foldl_cons]
    by_cases hy : strLt y acc = true
    · rw [if_pos hy]
      obtain ⟨m, hacc, hall⟩ := ih y
      refine ⟨?_, ?_, ?_⟩
      · rcases m with h | h
        · exact Or.inr (by simp [h])
        · exact Or.inr (List.mem_cons_of_mem _ h)
      · rw [Bool.eq_false_iff]
        intro hcontra
        have ht := strLt_trans hy hcontra
        rw [hacc] at ht
        exact absurd ht (by simp)
      · intro x hx
        rcases List.mem_cons.mp hx with rfl | hx2
        · exact hacc
        · exact hall x hx2
    · have hy' : strLt y acc = false := by simpa using hy
      rw [if_neg (by simp [hy'])]
      obtain ⟨m, hacc, hall⟩ := ih acc
      refine ⟨?_, hacc, ?_⟩
      · rcases m with h | h
        · exact Or.inl h
        · exact Or.inr (List.mem_cons_of_mem _ h)
      · intro x hx
        rcases List.mem_cons.mp hx with rfl | hx2
        · exact strLt_false_trans hy' hacc
        · exact hall x hx2

/-- The running value of the `pyMax` fold is an element (or the seed) and an
upper bound of everything consumed so far. -/
theorem foldlMax_spec (as : List String) (acc : String) :
    (as.foldl (fun a x => if strLt a x then x else a) acc = acc ∨
      as.foldl (fun a x => if strLt a x then x else a) acc ∈ as)
    ∧ strLt (as.foldl (fun a x => if strLt a x then x else a) acc) acc = false
    ∧ ∀ x ∈ as, strLt (as.foldl (fun a x => if strLt a x then x else a) acc) x = false := by
  induction as generalizing acc with
  | nil => exact ⟨Or.inl rfl, strLt_irrefl acc, by simp⟩
  | cons y ys ih =>
    simp only [List.foldl_cons]
    by_cases hy : strLt acc y = true
    · rw [if_pos hy]
      obtain ⟨m, hacc, hall⟩ := ih y
      refine ⟨?_, ?_, ?_⟩
      · rcases m with h | h
        · exact Or.inr (by simp [h])
        · exact Or.inr (List.mem_cons_of_mem _ h)
      · rw [Bool.eq_false_iff]
        intro hcontra
        have ht := strLt_trans hcontra hy
        rw [hacc] at ht
        exact absurd ht (by simp)
      · intro x hx
        rcases List.mem_cons.mp hx with rfl | hx2
        · exact hacc
        · exact hall x hx2
    · have hy' : strLt acc y = false := by simpa using hy
      rw [if_neg (by simp [hy'])]
      obtain ⟨m, hacc, hall⟩ := ih acc
      refine ⟨?_, hacc, ?_⟩
      · rcases m with h | h
        · exact Or.inl h
        · exact Or.inr (List.mem_cons_of_mem _ h)
      · intro x hx
        rcases List.mem_cons.mp hx with rfl | hx2
        · exact strLt_false_trans hacc hy'
        · exact hall x hx2

/-- `pyMin` returns a member that no other member is below. -/
theorem pyMin_spec (l : List String) :
    (pyMin l = none ↔ l = []) ∧
    ∀ d, pyMin l = some d → d ∈ l ∧ ∀ x ∈ l, strLt x d = false := by
  cases l with
  | nil => simp [pyMin]
  | cons a as =>
    refine ⟨by simp [pyMin], ?_⟩
    intro d hd
    simp only [pyMin, Option.some.injEq] at hd
    subst hd
    obtain ⟨m, hacc, hall⟩ := foldlMin_spec as a
    refine ⟨?_, ?_⟩
    · rcases m with h | h
      · simp [h]
      · exact List.mem_cons_of_mem _ h
    · intro x hx
      rcases List.mem_cons.mp hx with rfl | hx2
      · exact hacc
      · exact hall x hx2

/-- `pyMax` returns a member that is below no other member. -/
theorem pyMax_spec (l : List String) :
    (pyMax l = none ↔ l = []) ∧
    ∀ d, pyMax l = some d → d ∈ l ∧ ∀ x ∈ l, strLt d x = false := by
  cases l with
  | nil => simp [pyMax]
  | cons a as =>
    refine ⟨by simp [pyMax], ?_⟩
    intro d hd
    simp only [pyMax, Option.some.injEq] at hd
    subst hd
    obtain ⟨m, hacc, hall⟩ := foldlMax_spec as a
    refine ⟨?_, ?_⟩
    · rcases m with h | h
      · simp [h]
      · exact List.mem_cons_of_mem _ h
    · intro x hx
      rcases List.mem_cons.mp hx with rfl | hx2
      · exact hacc
      · exact hall x hx2

/-- Projecting the month out of the normalized series recovers the sorted,
deduplicated key list. -/
theorem normalizeSeries_map_ym (pts : List RawPoint) :
    (normalizeSeries pts).map MonthPoint.ym =
      List.insertionSort (· ≤ ·) (pts.map ymKey).dedup := by
  rw [normalizeSeries, List.map_map]
  have h : MonthPoint.ym ∘ (fun k =>
      let bucket := pts.filter (fun p => ymKey p == k)
      ({ ym := k
         avg := (bucket.map RawPoint.avg).sum / (bucket.length : Rat)
         peak := ratMax (bucket.map RawPoint.peak) } : MonthPoint)) = id := by
    funext k
    rfl
  rw [h, List.map_id]

/-! Helper lemmas about the panel row constructor. -/

/-- Fields of a panel row that do not depend on the anchor case. -/
theorem panelRowFor_base_fields (g : GameInput) (t : Nat) (em : Option Int)
    (df : List MonthPoint) (rel : Int) :
    (panelRowFor g t em df rel).rel_month = rel ∧
    (panelRowFor g t em df rel).treatment = t ∧
    (panelRowFor g t em df rel).event_date = em ∧
    (panelRowFor g t em df rel).appid = g.appid := by
  cases em <;> cases df <;> exact ⟨rfl, rfl, rfl, rfl⟩

/-- Month of a treated row. -/
theorem panelRowFor_month_some (g : GameInput) (t : Nat) (e : Int)
    (df : List MonthPoint) (rel : Int) :
    (panelRowFor g t (some e) df rel).month = some (e + rel) := rfl

/-- Control rows over an empty normalized series are all-null. -/
theorem panelRowFor_nil_null (g : GameInput) (t : Nat) (rel : Int) :
    (panelRowFor g t none [] rel).month = none ∧
    (panelRowFor g t none [] rel).avg_players = none ∧
    (panelRowFor g t none [] rel).peak_players = none := ⟨rfl, rfl, rfl⟩

/-- Month of a control row over a nonempty normalized series. -/
theorem panelRowFor_month_control (g : GameInput) (t : Nat) (q : MonthPoint)
    (qs : List MonthPoint) (rel : Int) :
    (panelRowFor g t none (q :: qs) rel).month =
      some (intMaxOf ((q :: qs).map MonthPoint.ym) + rel) := rfl

/-- A treated row whose month is absent from the series carries null
player counts. -/
theorem panelRowFor_missing_month (g : GameInput) (t : Nat) (e : Int)
    (df : List MonthPoint) (rel : Int)
    (h : df.filter (fun q => q.ym == e + rel) = []) :
    (panelRowFor g t (some e) df rel).avg_players = none ∧
    (panelRowFor g t (some e) df rel).peak_players = none := by
  constructor
  · show (df.filter (fun q => q.ym == e + rel)).head?.map MonthPoint.avg = none
    rw [h]
    rfl
  · show (df.filter (fun q => q.ym == e + rel)).head?.map MonthPoint.peak = none
    rw [h]
    rfl

/-- A control row over a nonempty series whose anchor-relative month is
absent from the series carries null player counts. -/
theorem panelRowFor_missing_month_control (g : GameInput) (t : Nat)
    (q : MonthPoint) (qs : List MonthPoint) (rel : Int)
    (h : (q :: qs).filter
      (fun p => p.ym == intMaxOf ((q :: qs).map MonthPoint.ym) + rel) = []) :
    (panelRowFor g t none (q :: qs) rel).avg_players = none ∧
    (panelRowFor g t none (q :: qs) rel).peak_players = none := by
  constructor
  · show ((q :: qs).filter
      (fun p => p.ym == intMaxOf ((q :: qs).map MonthPoint.ym) + rel)).head?.map
        MonthPoint.avg = none
    rw [h]
    rfl
  · show ((q :: qs).filter
      (fun p => p.ym == intMaxOf ((q :: qs).map MonthPoint.ym) + rel)).head?.map
        MonthPoint.peak = none
    rw [h]
    rfl

/-- Membership in the per-game rows. -/
theorem mem_gameRows {fp sp : String → Option Ymd} {g : GameInput} {r : PanelRow} :
    r ∈ gameRows fp sp g ↔ ∃ rel ∈ relRange,
      panelRowFor g (treatmentOf (extract_last_major_date fp sp g.summaryEntry))
        (eventMonthOf (extract_last_major_date fp sp g.summaryEntry))
        (normalizeSeries g.series) rel = r := by
  rw [gameRows]
  exact List.mem_map

/-! Helper lemmas about the cache table. -/

/-- After deleting every row matching a key, a fresh row appended for that
key is the one found. -/
theorem find?_filter_append_self {α : Type} (l : List (CacheRow α))
    (p : CacheRow α → Bool) (x : CacheRow α) (hx : p x = true) :
    ((l.filter (fun r => !p r)) ++ [x]).find? p = some x := by
  induction l with
  | nil => simp [List.find?, hx]
  | cons a as ih =>
    rw [List.filter_cons]
    by_cases ha : p a = true
    · rw [if_neg (by simp [ha])]
      exact ih
    · have ha2 : p a = false := by simpa using ha
      rw [if_pos (by simp [ha2]), List.cons_append, List.find?_cons, ha2]
      exact ih

/-- Filtering out a present element strictly shrinks a list. -/
theorem length_filter_lt_of_mem_false {α : Type} (l : List α) (p : α → Bool)
    (x : α) (hx : x ∈ l) (hpx : p x = false) :
    (l.filter p).length < l.length := by
  induction l with
  | nil => cases hx
  | cons a as ih =>
    rw [List.filter_cons]
    rcases List.mem_cons.mp hx with rfl | hmem
    · rw [hpx]
      exact Nat.lt_succ_of_le (List.length_filter_le p as)
    · by_cases ha : p a = true
      · rw [if_pos (by simp [ha])]
        simpa using Nat.succ_lt_succ (ih hmem)
      · have ha2 : p a = false := by simpa using ha
        rw [if_neg (by simp [ha2])]
        exact Nat.lt_succ_of_lt (ih hmem)

/-- A read immediately after a write hits the freshly written row. -/
theorem cache_set_get_hit {α : Type} (c : SteamCache α) (endpoint : String)
    (appid : Nat) (data : α) (t_set t_get : Rat)
    (h : ¬ c.ttl_seconds < t_get - t_set) :
    ((c.set endpoint appid data t_set).get endpoint appid t_get).1 = some data := by
  have hfind : (((c.set endpoint appid data t_set)).rows).find?
      (cacheKeyMatches endpoint appid) =
      some ⟨endpoint, appid, data, t_set⟩ := by
    rw [SteamCache.set]
    exact find?_filter_append_self c.rows (cacheKeyMatches endpoint appid) _
      (by simp [cacheKeyMatches])
  simp only [SteamCache.get, hfind]
  rw [if_neg (show ¬ (c.set endpoint appid data t_set).ttl_seconds <
      t_get - (⟨endpoint, appid, data, t_set⟩ : CacheRow α).timestamp from h)]

/-! Claim theorems. -/

/-- Claim C1: for every (title, body) pair, `classify_patch` follows the
deterministic tie-break over the lowercased, space-joined concatenation
of title and body: no patch keyword gives `none`; a minor indicator
without a major indicator gives MINOR with reason minor_keywords; a
major indicator gives MAJOR with reason major_keywords (taking
precedence over minor); otherwise the default branch gives MINOR with
reason default_minor when the text contains bug fix or hotfix and MAJOR
with reason default_major otherwise. In particular the Hotfix example
classifies as MINOR / minor_keywords and the Roadmap example as not a
patch. -/
theorem classify_patch_tiebreak :
    (∀ title contents : String,
      (anyKwIn patch_keywords (lowerCombined title contents) = false →
        classify_patch title contents = none)
      ∧ (anyKwIn patch_keywords (lowerCombined title contents) = true →
          (anyKwIn minor_indicators (lowerCombined title contents) = true →
            anyKwIn major_indicators (lowerCombined title contents) = false →
            classify_patch title contents = some (true, false, "minor_keywords"))
          ∧ (anyKwIn major_indicators (lowerCombined title contents) = true →
            classify_patch title contents = some (true, true, "major_keywords"))
          ∧ (anyKwIn minor_indicators (lowerCombined title contents) = false →
            anyKwIn major_indicators (lowerCombined title contents) = false →
            ((containsKw (lowerCombined title contents) "bug fix"
                || containsKw (lowerCombined title contents) "hotfix") = true →
              classify_patch title contents = some (true, false, "default_minor"))
            ∧ ((containsKw (lowerCombined title contents) "bug fix"
                || containsKw (lowerCombined title contents) "hotfix") = false →
              classify_patch title contents = some (true, true, "default_major")))))
    ∧ classify_patch "Hotfix 1.2.1" "Fixed a crash" = some (true, false, "minor_keywords")
    ∧ classify_patch "Roadmap" "Our plans for next year" = none := by
  refine ⟨?_, by decide, by decide⟩
  intro title contents
  constructor
  · intro h
    simp [classify_patch, h]
  · intro hp
    refine ⟨?_, ?_, ?_⟩
    · intro hmin hmaj
      simp [classify_patch, hp, hmin, hmaj]
    · intro hmaj
      simp [classify_patch, hp, hmaj]
    · intro hmin hmaj
      constructor
      · intro hbf
        simp [classify_patch, hp, hmin, hmaj, hbf]
      · intro hbf
        simp [classify_patch, hp, hmin, hmaj, hbf]

theorem classify_patch_tiebreak_witness :
    anyKwIn patch_keywords (lowerCombined "Major Update 2.0" "New game mode added") = true ∧
    anyKwIn major_indicators (lowerCombined "Major Update 2.0" "New game mode added") = true ∧
    classify_patch "Major Update 2.0" "New game mode added" = some (true, true, "major_keywords") :=
  ⟨by decide, by decide,
    (((classify_patch_tiebreak.1 "Major Update 2.0" "New game mode added").2
      (by decide)).2.1 (by decide))⟩

/-- Claim C2 (evaluation at the failing input): the source classifies the
Balance Patch / empty-body example as MAJOR with reason default_major,
because the enumerated minor-indicator set contains balance adjustment
but not the bare word balance, contradicting the module docstring
(patch_extractor.py, line 15) and the specified MINOR outcome. -/
theorem classify_balance_patch_eval :
    classify_patch "Balance Patch" "" = some (true, true, "default_major") := by decide

/-- Claim C9: for every (title, body) input the classifier never returns
the reason code default_minor: the default-to-MINOR branch is
unreachable because any text containing bug fix or hotfix already
matches the minor-indicator set in an earlier branch. -/
theorem classify_patch_no_default_minor :
    ∀ (title contents : String) (p m : Bool),
      classify_patch title contents ≠ some (p, m, "default_minor") := by
  intro title contents p m h
  unfold classify_patch at h
  by_cases hp : anyKwIn patch_keywords (lowerCombined title contents) = false
  · simp [hp] at h
  · simp only [hp, if_neg, if_false] at h
    by_cases hmaj : anyKwIn major_indicators (lowerCombined title contents) = true
    · by_cases hmin : anyKwIn minor_indicators (lowerCombined title contents) = true
      all_goals simp [hmaj, hmin] at h
    · have hmaj' : anyKwIn major_indicators (lowerCombined title contents) = false := by
        simpa using hmaj
      by_cases hmin : anyKwIn minor_indicators (lowerCombined title contents) = true
      · simp [hmaj', hmin] at h
      · have hmin' : anyKwIn minor_indicators (lowerCombined title contents) = false := by
          simpa using hmin
        have hbf : containsKw (lowerCombined title contents) "bug fix" = false ∧
            containsKw (lowerCombined title contents) "hotfix" = false := by
          have := hmin'
          simp [anyKwIn, minor_indicators] at this
          exact ⟨this.2.1, this.1⟩
        simp [hmaj', hmin', hbf.1, hbf.2] at h

theorem classify_patch_no_default_minor_witness :
    classify_patch "Patch notes" "" ≠ some (true, true, "default_minor") :=
  classify_patch_no_default_minor "Patch notes" "" true true

/-- Claim C5: for every list of classified patch records, the summary has
first_major_patch_date equal to the minimum date among major records
(none when no major record exists), last_patch_date equal to the
maximum date among all records (none when there are no records), and
the empty record list (including a game whose fetch failed) yields the
all-zero, all-null summary. Minimality and maximality are stated
through the Python string order `strLt`, which on the fixed-width
date format used by the source is chronological order. -/
theorem summarizeGame_summary_spec :
    (∀ patches : List PatchEntry,
      ((summarizeGame patches).first_major_patch_date = none ↔
        patches.filter (fun p => p.is_major) = [])
      ∧ (∀ d, (summarizeGame patches).first_major_patch_date = some d →
          d ∈ (patches.filter (fun p => p.is_major)).map PatchEntry.date ∧
          ∀ d' ∈ (patches.filter (fun p => p.is_major)).map PatchEntry.date,
            strLt d' d = false)
      ∧ ((summarizeGame patches).last_patch_date = none ↔ patches = [])
      ∧ (∀ d, (summarizeGame patches).last_patch_date = some d →
          d ∈ patches.map PatchEntry.date ∧
          ∀ d' ∈ patches.map PatchEntry.date, strLt d d' = false))
    ∧ summarizeGame [] =
      { total_patches := 0, major_patches := 0, minor_patches := 0,
        has_major_patch := false, first_major_patch_date := none,
        last_patch_date := none } := by
  refine ⟨?_, by decide⟩
  intro patches
  have hfirst := pyMin_spec ((patches.filter (fun p => p.is_major)).map PatchEntry.date)
  have hlast := pyMax_spec (patches.map PatchEntry.date)
  refine ⟨?_, ?_, ?_, ?_⟩
  · rw [show (summarizeGame patches).first_major_patch_date =
      pyMin ((patches.filter (fun p => p.is_major)).map PatchEntry.date) from rfl]
    rw [hfirst.1, List.map_eq_nil_iff]
  · intro d hd
    exact hfirst.2 d hd
  · rw [show (summarizeGame patches).last_patch_date =
      pyMax (patches.map PatchEntry.date) from rfl]
    rw [hlast.1, List.map_eq_nil_iff]
  · intro d hd
    exact hlast.2 d hd

theorem summarizeGame_summary_spec_witness :
    "2024-01-01 00:00:00" ∈
      (([⟨570, "Big Patch", "new content", "2024-01-02 00:00:00", 1704153600, true, "major_keywords"⟩,
         ⟨570, "Expansion", "expansion", "2024-01-01 00:00:00", 1704067200, true, "major_keywords"⟩,
         ⟨570, "Hotfix", "bug fix", "2024-03-01 00:00:00", 1709251200, false, "minor_keywords"⟩] :
        List PatchEntry).filter (fun p => p.is_major)).map PatchEntry.date :=
  ((summarizeGame_summary_spec.1 _).2.1 "2024-01-01 00:00:00" (by decide)).1

/-- Claim C6: the monthly normalizer emits months in strictly increasing
order (hence at most one point per month, chronologically), each output
point carries the arithmetic mean of the raw averages and the maximum
of the raw peaks of its bucket, a month appears in the output exactly
when some raw point maps to it, the two-point January example collapses
to a single point with avg 15 and peak 20, and the empty input yields
the empty output. -/
theorem normalizeSeries_spec :
    (∀ pts : List RawPoint,
      List.Sorted (· < ·) ((normalizeSeries pts).map MonthPoint.ym)
      ∧ (∀ q ∈ normalizeSeries pts,
          q.avg = ((pts.filter (fun p => ymKey p == q.ym)).map RawPoint.avg).sum /
            (((pts.filter (fun p => ymKey p == q.ym)).length : Rat))
          ∧ q.peak = ratMax ((pts.filter (fun p => ymKey p == q.ym)).map RawPoint.peak))
      ∧ (∀ k : Int, k ∈ (normalizeSeries pts).map MonthPoint.ym ↔ k ∈ pts.map ymKey))
    ∧ normalizeSeries [⟨2024, 1, 5, 10, 20⟩, ⟨2024, 1, 20, 20, 15⟩] =
        [⟨ymIdx 2024 1, 15, 20⟩]
    ∧ normalizeSeries [] = [] := by
  refine ⟨?_, ?_, by decide⟩
  case refine_2 =>
    have hk2 : List.insertionSort (· ≤ ·)
        ([ymKey (⟨2024, 1, 5, 10, 20⟩ : RawPoint),
          ymKey (⟨2024, 1, 20, 20, 15⟩ : RawPoint)].dedup) = [ymIdx 2024 1] := by decide
    have hb : List.filter (fun p => ymKey p == ymIdx 2024 1)
        ([⟨2024, 1, 5, 10, 20⟩, ⟨2024, 1, 20, 20, 15⟩] : List RawPoint) =
        [⟨2024, 1, 5, 10, 20⟩, ⟨2024, 1, 20, 20, 15⟩] := by decide
    simp only [normalizeSeries, List.map_cons, List.map_nil]
    rw [hk2]
    simp only [List.map_cons, List.map_nil, hb, MonthPoint.mk.injEq,
      List.length_cons, List.length_nil, ratMax, List.foldl]
    norm_num [max_def]
  intro pts
  refine ⟨?_, ?_, ?_⟩
  · rw [normalizeSeries_map_ym]
    have hs := List.sorted_insertionSort (· ≤ ·) (pts.map ymKey).dedup
    have hn : (List.insertionSort (· ≤ ·) (pts.map ymKey).dedup).Nodup :=
      (List.perm_insertionSort (· ≤ ·) (pts.map ymKey).dedup).nodup_iff.mpr
        (List.nodup_dedup _)
    exact hs.lt_of_le hn
  · intro q hq
    rw [normalizeSeries] at hq
    simp only [List.mem_map] at hq
    obtain ⟨k, hk, rfl⟩ := hq
    exact ⟨rfl, rfl⟩
  · intro k
    rw [normalizeSeries_map_ym]
    rw [(List.perm_insertionSort (· ≤ ·) (pts.map ymKey).dedup).mem_iff]
    exact List.mem_dedup

theorem normalizeSeries_spec_witness :
    ymIdx 2024 1 ∈
      (normalizeSeries [⟨2024, 1, 5, 10, 20⟩, ⟨2024, 1, 20, 20, 15⟩]).map MonthPoint.ym :=
  ((normalizeSeries_spec.1 _).2.2 (ymIdx 2024 1)).mpr (by decide)

/-- Claim C3: anchor determination in the panel builder. When the
parseable major-patch date of a game is present, every row is treated
(treatment 1) and the row at rel_month 0 carries the first-of-month of
that date as its month; otherwise every row is control (treatment 0)
and the rel_month 0 row carries the latest available month of the
normalized series of that same game; when that series is empty no
anchor exists and every row carries null month, avg_players and
peak_players. -/
theorem gameRows_anchor :
    ∀ (fp sp : String → Option Ymd) (g : GameInput),
      (∀ d, extract_last_major_date fp sp g.summaryEntry = some d →
        ∀ r ∈ gameRows fp sp g,
          r.treatment = 1 ∧ r.event_date = some (ymIdx d.y d.m) ∧
          (r.rel_month = 0 → r.month = some (ymIdx d.y d.m)))
      ∧ (extract_last_major_date fp sp g.summaryEntry = none →
          normalizeSeries g.series ≠ [] →
          ∀ r ∈ gameRows fp sp g,
            r.treatment = 0 ∧ r.event_date = none ∧
            (r.rel_month = 0 →
              r.month = some (intMaxOf ((normalizeSeries g.series).map MonthPoint.ym))))
      ∧ (extract_last_major_date fp sp g.summaryEntry = none →
          normalizeSeries g.series = [] →
          ∀ r ∈ gameRows fp sp g,
            r.treatment = 0 ∧ r.event_date = none ∧ r.month = none ∧
            r.avg_players = none ∧ r.peak_players = none) := by
  intro fp sp g
  refine ⟨?_, ?_, ?_⟩
  · intro d hd r hr
    obtain ⟨rel, _, rfl⟩ := mem_gameRows.mp hr
    rw [hd]
    have hb := panelRowFor_base_fields g (treatmentOf (some d)) (eventMonthOf (some d))
      (normalizeSeries g.series) rel
    refine ⟨hb.2.1, hb.2.2.1, ?_⟩
    intro h0
    rw [hb.1] at h0
    subst h0
    have hm := panelRowFor_month_some g (treatmentOf (some d)) (ymIdx d.y d.m)
      (normalizeSeries g.series) 0
    simpa using hm
  · intro hnone hne r hr
    obtain ⟨rel, _, rfl⟩ := mem_gameRows.mp hr
    rw [hnone]
    cases hdf : normalizeSeries g.series with
    | nil => exact absurd hdf hne
    | cons q qs =>
      have hb := panelRowFor_base_fields g (treatmentOf none) (eventMonthOf none)
        (q :: qs) rel
      refine ⟨hb.2.1, hb.2.2.1, ?_⟩
      intro h0
      rw [hb.1] at h0
      subst h0
      have hm : (panelRowFor g (treatmentOf none) (eventMonthOf none) (q :: qs) 0).month =
          some (intMaxOf ((q :: qs).map MonthPoint.ym) + 0) :=
        panelRowFor_month_control g (treatmentOf none) q qs 0
      rw [hm, add_zero]
  · intro hnone hdf r hr
    obtain ⟨rel, _, rfl⟩ := mem_gameRows.mp hr
    rw [hnone, hdf]
    have hb := panelRowFor_base_fields g (treatmentOf none) (eventMonthOf none) [] rel
    have hn := panelRowFor_nil_null g (treatmentOf none) rel
    exact ⟨hb.2.1, hb.2.2.1, hn.1, hn.2.1, hn.2.2⟩

theorem gameRows_anchor_witness :
    ({ appid := 1, name := none, event_date := some 24290, rel_month := 0,
       month := some 24290, avg_players := none, peak_players := none,
       owners_estimate := none, metacritic_score := none,
       treatment := 1 } : PanelRow).treatment = 1 ∧
    ({ appid := 1, name := none, event_date := some 24290, rel_month := 0,
       month := some 24290, avg_players := none, peak_players := none,
       owners_estimate := none, metacritic_score := none,
       treatment := 1 } : PanelRow).month = some 24290 := by
  have h := (gameRows_anchor (fun _ => some ⟨2024, 3, 15⟩) (fun _ => none)
      ⟨1, none, none, some ⟨some "2024-03-15"⟩, []⟩).1 ⟨2024, 3, 15⟩ (by decide)
      { appid := 1, name := none, event_date := some 24290, rel_month := 0,
        month := some 24290, avg_players := none, peak_players := none,
        owners_estimate := none, metacritic_score := none, treatment := 1 } (by decide)
  exact ⟨h.1, h.2.2 rfl⟩

/-- Claim C4: the panel is the concatenation, in input order, of exactly
nine rows per game whose rel_month values are -4 to 4 each exactly once
in ascending order and whose appid is the appid of the game; and for
every game, treated or control, a relative month whose computed month
is absent from the normalized series of the game still yields a row
with null player counts, never a dropped row (stated once for every
emitted row of every game, and once more in the explicit treated form
over the row constructor). -/
theorem build_panel_shape :
    (∀ (fp sp : String → Option Ymd) (games : List GameInput),
      build_panel fp sp games = games.flatMap (gameRows fp sp))
    ∧ (∀ (fp sp : String → Option Ymd) (g : GameInput),
        (gameRows fp sp g).map PanelRow.rel_month = [-4, -3, -2, -1, 0, 1, 2, 3, 4]
        ∧ (gameRows fp sp g).length = 9
        ∧ (∀ r ∈ gameRows fp sp g, r.appid = g.appid))
    ∧ (∀ (g : GameInput) (t : Nat) (e : Int) (df : List MonthPoint) (rel : Int),
        df.filter (fun q => q.ym == e + rel) = [] →
        (panelRowFor g t (some e) df rel).month = some (e + rel) ∧
        (panelRowFor g t (some e) df rel).avg_players = none ∧
        (panelRowFor g t (some e) df rel).peak_players = none)
    ∧ (∀ (fp sp : String → Option Ymd) (g : GameInput) (r : PanelRow),
        r ∈ gameRows fp sp g →
        (∀ m, r.month = some m →
          (normalizeSeries g.series).filter (fun q => q.ym == m) = [] →
          r.avg_players = none ∧ r.peak_players = none)
        ∧ (r.month = none →
          r.avg_players = none ∧ r.peak_players = none)) := by
  refine ⟨fun _ _ _ => rfl, ?_, ?_, ?_⟩
  · intro fp sp g
    refine ⟨?_, ?_, ?_⟩
    · rw [gameRows, List.map_map]
      simp only [relRange, List.map_cons, List.map_nil, Function.comp_apply,
        (panelRowFor_base_fields g _ _ _ _).1]
    · rw [gameRows, List.length_map]
      rfl
    · intro r hr
      obtain ⟨rel, _, rfl⟩ := mem_gameRows.mp hr
      exact (panelRowFor_base_fields g _ _ _ rel).2.2.2
  · intro g t e df rel h
    obtain ⟨h1, h2⟩ := panelRowFor_missing_month g t e df rel h
    exact ⟨panelRowFor_month_some g t e df rel, h1, h2⟩
  · intro fp sp g r hr
    obtain ⟨rel, _, rfl⟩ := mem_gameRows.mp hr
    cases hem : eventMonthOf (extract_last_major_date fp sp g.summaryEntry) with
    | some e =>
      constructor
      · intro m hm hfil
        have hmm := panelRowFor_month_some g
          (treatmentOf (extract_last_major_date fp sp g.summaryEntry))
          e (normalizeSeries g.series) rel
        rw [hmm, Option.some.injEq] at hm
        subst hm
        exact panelRowFor_missing_month g _ e _ rel hfil
      · intro hm
        rw [panelRowFor_month_some] at hm
        exact absurd hm (by simp)
    | none =>
      cases hdf : normalizeSeries g.series with
      | nil =>
        have hn := panelRowFor_nil_null g
          (treatmentOf (extract_last_major_date fp sp g.summaryEntry)) rel
        constructor
        · intro m hm hfil
          rw [hn.1] at hm
          exact absurd hm (by simp)
        · intro _
          exact ⟨hn.2.1, hn.2.2⟩
      | cons q qs =>
        constructor
        · intro m hm hfil
          have hmm := panelRowFor_month_control g
            (treatmentOf (extract_last_major_date fp sp g.summaryEntry)) q qs rel
          rw [hmm, Option.some.injEq] at hm
          subst hm
          exact panelRowFor_missing_month_control g _ q qs rel hfil
        · intro hm
          rw [panelRowFor_month_control] at hm
          exact absurd hm (by simp)

theorem build_panel_shape_witness :
    (panelRowFor ⟨1, none, none, none, []⟩ 0 (some 0) [] 0).month = some 0 ∧
    (panelRowFor ⟨1, none, none, none, []⟩ 0 (some 0) [] 0).avg_players = none ∧
    ({ appid := 2, name := none, event_date := none, rel_month := -4, month := none,
       avg_players := none, peak_players := none, owners_estimate := none,
       metacritic_score := none, treatment := 0 } : PanelRow).avg_players = none ∧
    ({ appid := 2, name := none, event_date := none, rel_month := -4, month := none,
       avg_players := none, peak_players := none, owners_estimate := none,
       metacritic_score := none, treatment := 0 } : PanelRow).peak_players = none :=
  let h := build_panel_shape.2.2.1 ⟨1, none, none, none, []⟩ 0 0 [] 0 rfl
  let h4 := (build_panel_shape.2.2.2 (fun _ => none) (fun _ => none)
      ⟨2, none, none, none, []⟩
      { appid := 2, name := none, event_date := none, rel_month := -4, month := none,
        avg_players := none, peak_players := none, owners_estimate := none,
        metacritic_score := none, treatment := 0 } (by decide)).2 rfl
  ⟨h.1, h.2.1, h4.1, h4.2⟩

/-- Claim C7: in every emitted panel row, treatment equals 1 exactly when
event_date is non-null, and any two rows of the same game agree on the
treatment value and on the nullity of event_date. -/
theorem panel_treatment_event_consistency :
    (∀ (fp sp : String → Option Ymd) (games : List GameInput) (r : PanelRow),
      r ∈ build_panel fp sp games → (r.treatment = 1 ↔ r.event_date ≠ none))
    ∧ (∀ (fp sp : String → Option Ymd) (g : GameInput) (r r' : PanelRow),
        r ∈ gameRows fp sp g → r' ∈ gameRows fp sp g →
        r.treatment = r'.treatment ∧ (r.event_date = none ↔ r'.event_date = none)) := by
  have key : ∀ (fp sp : String → Option Ymd) (g : GameInput) (r : PanelRow),
      r ∈ gameRows fp sp g →
      r.treatment = treatmentOf (extract_last_major_date fp sp g.summaryEntry) ∧
      r.event_date = eventMonthOf (extract_last_major_date fp sp g.summaryEntry) := by
    intro fp sp g r hr
    obtain ⟨rel, _, rfl⟩ := mem_gameRows.mp hr
    exact ⟨(panelRowFor_base_fields g _ _ _ rel).2.1,
      (panelRowFor_base_fields g _ _ _ rel).2.2.1⟩
  constructor
  · intro fp sp games r hr
    rw [build_panel, List.mem_flatMap] at hr
    obtain ⟨g, _, hrg⟩ := hr
    obtain ⟨ht, he⟩ := key fp sp g r hrg
    rw [ht, he]
    cases hlm : extract_last_major_date fp sp g.summaryEntry with
    | none => simp [treatmentOf, eventMonthOf]
    | some d => simp [treatmentOf, eventMonthOf]
  · intro fp sp g r r' hr hr'
    obtain ⟨ht, he⟩ := key fp sp g r hr
    obtain ⟨ht', he'⟩ := key fp sp g r' hr'
    rw [ht, he, ht', he']
    exact ⟨rfl, Iff.rfl⟩

theorem panel_treatment_event_consistency_witness :
    (({ appid := 1, name := none, event_date := none, rel_month := -4, month := none,
        avg_players := none, peak_players := none, owners_estimate := none,
        metacritic_score := none, treatment := 0 } : PanelRow).treatment = 1 ↔
     ({ appid := 1, name := none, event_date := none, rel_month := -4, month := none,
        avg_players := none, peak_players := none, owners_estimate := none,
        metacritic_score := none, treatment := 0 } : PanelRow).event_date ≠ none) :=
  panel_treatment_event_consistency.1 (fun _ => none) (fun _ => none)
    [⟨1, none, none, none, []⟩] _ (by decide)

/-- Claim C10: a summary entry whose recorded major-patch date string is
parsed by neither the ISO parser nor the %Y-%m-%d %H:%M:%S parser makes
the builder silently treat the game as a control: the extracted date is
none, and every row of the game has treatment 0 and null event_date,
with no error raised (the embedding is total). -/
theorem panel_unparseable_date_is_control :
    ∀ (fp sp : String → Option Ymd) (g : GameInput) (ds : String) (e : SummaryEntry),
      g.summaryEntry = some e →
      e.first_major_patch_date = some ds →
      fp ds = none → sp ds = none →
      extract_last_major_date fp sp g.summaryEntry = none ∧
      ∀ r ∈ gameRows fp sp g, r.treatment = 0 ∧ r.event_date = none := by
  intro fp sp g ds e h1 h2 h3 h4
  have hnone : extract_last_major_date fp sp g.summaryEntry = none := by
    by_cases hds : ds = ""
    · simp [extract_last_major_date, h1, h2, hds]
    · simp [extract_last_major_date, h1, h2, h3, h4, hds]
  refine ⟨hnone, ?_⟩
  intro r hr
  obtain ⟨rel, _, rfl⟩ := mem_gameRows.mp hr
  rw [hnone]
  have hb := panelRowFor_base_fields g (treatmentOf none) (eventMonthOf none)
    (normalizeSeries g.series) rel
  exact ⟨hb.2.1, hb.2.2.1⟩

theorem panel_unparseable_date_is_control_witness :
    extract_last_major_date (fun _ => none) (fun _ => none)
      (some ⟨some "not a date"⟩) = none :=
  (panel_unparseable_date_is_control (fun _ => none) (fun _ => none)
    ⟨7, none, none, some ⟨some "not a date"⟩, []⟩ "not a date" ⟨some "not a date"⟩
    rfl rfl rfl rfl).1

/-- Claim C8: the cache contract. A set followed by a get within the TTL
returns the identical payload; a get on an absent key returns nothing
and leaves the table unchanged; a get on an expired entry returns
nothing, deletes the entry as a side effect of the read, and strictly
decreases the stats total count; and set is an upsert where the last
write wins on key collision. -/
theorem steamCache_contract :
    ∀ (α : Type) (c : SteamCache α) (endpoint : String) (appid : Nat)
      (data : α) (t_set t_get : Rat),
      (¬ c.ttl_seconds < t_get - t_set →
        ((c.set endpoint appid data t_set).get endpoint appid t_get).1 = some data)
      ∧ (c.rows.find? (cacheKeyMatches endpoint appid) = none →
          (c.get endpoint appid t_get).1 = none ∧ (c.get endpoint appid t_get).2 = c)
      ∧ (∀ r, c.rows.find? (cacheKeyMatches endpoint appid) = some r →
          c.ttl_seconds < t_get - r.timestamp →
          (c.get endpoint appid t_get).1 = none ∧
          ((c.get endpoint appid t_get).2).rows =
            c.rows.filter (fun r2 => !cacheKeyMatches endpoint appid r2) ∧
          ((c.get endpoint appid t_get).2).get_stats_total < c.get_stats_total)
      ∧ (∀ (d2 : α) (t2 : Rat), ¬ c.ttl_seconds < t_get - t2 →
          (((c.set endpoint appid data t_set).set endpoint appid d2 t2).get
            endpoint appid t_get).1 = some d2) := by
  intro α c endpoint appid data t_set t_get
  refine ⟨?_, ?_, ?_, ?_⟩
  · exact cache_set_get_hit c endpoint appid data t_set t_get
  · intro hfind
    simp only [SteamCache.get, hfind]
    exact ⟨trivial, trivial⟩
  · intro r hfind hexp
    have hkey : cacheKeyMatches endpoint appid r = true := List.find?_some hfind
    have hmem : r ∈ c.rows := List.mem_of_find?_eq_some hfind
    simp only [SteamCache.get, hfind]
    rw [if_pos hexp]
    refine ⟨rfl, rfl, ?_⟩
    show (c.rows.filter (fun r2 => !cacheKeyMatches endpoint appid r2)).length <
      c.rows.length
    exact length_filter_lt_of_mem_false c.rows _ r hmem (by simp [hkey])
  · intro d2 t2 h2
    exact cache_set_get_hit (c.set endpoint appid data t_set) endpoint appid d2 t2 t_get h2

theorem steamCache_contract_witness :
    ((((⟨[], 10⟩ : SteamCache Nat).set "news" 570 42 0).get "news" 570 3).1 = some 42)
    ∧ ((((⟨[], 10⟩ : SteamCache Nat).set "news" 570 42 0).set "news" 570 99 1).get
        "news" 570 3).1 = some 99 :=
  ⟨(steamCache_contract Nat ⟨[], 10⟩ "news" 570 42 0 3).1 (by norm_num),
   (steamCache_contract Nat ⟨[], 10⟩ "news" 570 42 0 3).2.2.2 99 1 (by norm_num)⟩
